import Mathlib

/-!
Verification of the bulk-messaging dispatch scheduler
(`src/app/api/disparos/route.ts`).

The TypeScript source is shallowly embedded below:
* timestamps (epoch milliseconds) are modelled as `Int`;
* ISO timestamp strings stored in the database always come from
  `new Date(ms).toISOString()` and are compared as instants, so the
  `scheduled_at` column is modelled directly as the underlying `Int`;
* `Math.random()` outputs are modelled as a stream `rs : Nat → ℚ` of
  draws, each in `[0, 1)` where a theorem needs that fact;
* wall-clock reads (`Date.now()` / `now()` / `new Date()`) are modelled
  as a stream `clk : Nat → Int`, consumed one value per call;
* the Supabase message store is modelled as a list of rows in insertion
  order; selects are filters (plus a stable sort for `ORDER BY`) and
  updates are maps over that list;
* the HTTP transport is modelled as a deterministic oracle from the
  request URL to a response.
-/

namespace Disparos

/-! ### `digits` and `norm` (route.ts lines 81–86) -/

/-- Model of `(v || "").replace(/\D+/g, "")`: keep only the decimal digits. -/
def digits (v : String) : String :=
  ⟨v.data.filter fun c => c.isDigit⟩

/-- Model of `d.startsWith("55")`. -/
def startsWith55 (s : String) : Bool :=
  "55".data.isPrefixOf s.data

/-- Normalization `norm`: normalize a phone number (route.ts lines 82–86). -/
def norm (n : String) : String :=
  let d := digits n
  if d = "" then ""
  else if startsWith55 d then d else "55" ++ d

/-! ### `rand` (route.ts lines 88–93)

`rand(a, b)` computes `min = Math.min(a,b)`, `max = Math.max(a,b)`,
clamps `min` to `0` when negative, and returns
`min + Math.floor(Math.random() * (max - min + 1))`.  The `Math.random()`
draw is the parameter `r : ℚ`. -/

def rand (a b : Int) (r : ℚ) : Int :=
  let mn := max (min a b) 0
  let mx := max a b
  mn + Int.floor (r * ((mx - mn + 1 : Int) : ℚ))

/-! ### Calendar arithmetic (model of ECMAScript `Date.UTC` and of
`Intl.DateTimeFormat(..., { timeZone: z }).formatToParts`)

`daysFromCivil`/`civilFromDays` are the standard proleptic-Gregorian
conversions between a calendar date and a count of days since the epoch
1970-01-01. -/

/-- Days since 1970-01-01 of the Gregorian date `y-m-d`. -/
def daysFromCivil (y m d : Int) : Int :=
  let y' := if m ≤ 2 then y - 1 else y
  let era := Int.fdiv y' 400
  let yoe := y' - era * 400
  let mp := if 2 < m then m - 3 else m + 9
  let doy := Int.fdiv (153 * mp + 2) 5 + d - 1
  let doe := yoe * 365 + Int.fdiv yoe 4 - Int.fdiv yoe 100 + doy
  era * 146097 + doe - 719468

/-- Gregorian date `(y, m, d)` of a count of days since 1970-01-01. -/
def civilFromDays (z : Int) : Int × Int × Int :=
  let z' := z + 719468
  let era := Int.fdiv z' 146097
  let doe := z' - era * 146097
  let yoe := Int.fdiv (doe - Int.fdiv doe 1460 + Int.fdiv doe 36524 - Int.fdiv doe 146096) 365
  let y := yoe + era * 400
  let doy := doe - (365 * yoe + Int.fdiv yoe 4 - Int.fdiv yoe 100)
  let mp := Int.fdiv (5 * doy + 2) 153
  let d := doy - Int.fdiv (153 * mp + 2) 5 + 1
  let m := if mp < 10 then mp + 3 else mp - 9
  (if m ≤ 2 then y + 1 else y, m, d)

/-! ### Window policy (route.ts lines 108–147)

A timezone is modelled by its offset oracle `tzOff : Int → Int`, the
number of minutes east of UTC at a given instant (what the `Intl`
formatter resolves for`timeZone: z`).  The local wall clock at instant
`t` is `t + tzOff t * 60000`.  The server runtime's own timezone — which
`Date.prototype.getTimezoneOffset` reports — is modelled as a fixed
offset `serverOffMin` minutes east of UTC (`0` for a UTC runtime). -/

/-- Model of `getLocalHour(t, tz)` (route.ts lines 108–115): the local hour,
0–23, of instant `t` in the timezone with offset oracle `tzOff`. -/
def getLocalHour (t : Int) (tzOff : Int → Int) : Int :=
  (Int.fdiv (t + tzOff t * 60000) 3600000) % 24

/-- Model of `inWindow(t, tz, startH = 8, endH = 18)` (route.ts lines 116–119). -/
def inWindow (t : Int) (tzOff : Int → Int) (startH : Int := 8) (endH : Int := 18) : Bool :=
  let h := getLocalHour t tzOff
  startH ≤ h ∧ h < endH

/-- Model of `next0800(t, tz)` (route.ts lines 120–147).

The source formats the calendar day of `t` in the target zone, builds
`Date.UTC(y, m-1, d, 8)`, then computes
`offsetMin = -new Date(eightLocal.toLocaleString("en-US", {timeZone: z})).getTimezoneOffset()`.
`getTimezoneOffset` reports the offset of the *server runtime's* zone,
not of `z`, so `offsetMin = serverOffMin` here.  Finally
`tomorrow.setUTCDate(getUTCDate() + 1)` adds exactly 86 400 000 ms. -/
def next0800 (t : Int) (tzOff : Int → Int) (serverOffMin : Int) : Int :=
  let localDay := Int.fdiv (t + tzOff t * 60000) 86400000
  let ymd := civilFromDays localDay
  let eightLocal := daysFromCivil ymd.1 ymd.2.1 ymd.2.2 * 86400000 + 8 * 3600000
  let offsetMin := serverOffMin
  let eightEpoch := eightLocal - offsetMin * 60000
  if t ≤ eightEpoch then eightEpoch else eightEpoch + 86400000

/-! ### Transport client `sendViaUazapi` (route.ts lines 150–228)

The HTTP layer is modelled by a deterministic oracle `net` mapping the
POSTed URL to a response.  A response carries its status code, the
optional `x-fallback-url` header, the optional parsed-JSON-body
fallback hint (`{step: "fallback", url}`), and the serialized body text
that ends up in the diagnostic line. -/

structure Resp where
  status : Int
  fallbackHeader : Option String
  bodyFallbackUrl : Option String
  bodyText : String

/-- One entry of the `tried` accumulator: `{url, status, data}`. -/
structure Tried where
  url : String
  status : Int
  data : String
deriving DecidableEq, Repr

/-- Model of `Response.ok`: status in the inclusive range 200–299. -/
def respOk (s : Int) : Bool :=
  200 ≤ s ∧ s ≤ 299

/-- Model of stripping trailing slashes, `replace(/\/+$/, "")`. -/
def stripTrailingSlashes (s : String) : String :=
  ⟨(s.data.reverse.dropWhile fun c => c = '/').reverse⟩

/-- Model of the case-insensitive endpoint-suffix test
`/\/(send\/text|message\/text|sendText)$/i.test(clean)`: lower-case the
characters and test the three suffixes. -/
def hasEndpointSuffix (s : String) : Bool :=
  let l := s.data.map Char.toLower
  "/send/text".data.isSuffixOf l || "/message/text".data.isSuffixOf l ||
    "/sendtext".data.isSuffixOf l

/-- Model of `normalizeCandidates` (route.ts lines 182–188). -/
def normalizeCandidates (baseOrFull : String) : List String :=
  let clean := stripTrailingSlashes baseOrFull
  if hasEndpointSuffix clean then [clean]
  else [clean ++ "/send/text", clean ++ "/message/text", clean ++ "/sendText"]

/-- The fallback hint extracted from a 404 response:
`headers.get("x-fallback-url") || <body {step:"fallback", url}>`. -/
def fallbackOf (r : Resp) : Option String :=
  match r.fallbackHeader with
  | some h => some h
  | none => r.bodyFallbackUrl

/-- The inner loop over fallback-derived candidates (route.ts lines
214–218): attempts each, accumulating into `tried`; `some` on a 2xx. -/
def tryFallbackBatch (net : String → Resp) : List String → List Tried → Option (List Tried) × List Tried
  | [], tried => (none, tried)
  | alt :: rest, tried =>
    let r := net alt
    let tried' := tried ++ [⟨alt, r.status, r.bodyText⟩]
    if respOk r.status then (some tried', tried')
    else tryFallbackBatch net rest tried'

/-- The outer loop over the first candidate batch (route.ts lines
193–221).  Returns `(success?, all attempts in order)`. -/
def tryFirstBatch (net : String → Resp) : List String → List Tried → Bool × List Tried
  | [], tried => (false, tried)
  | url :: rest, tried =>
    let r := net url
    let tried' := tried ++ [⟨url, r.status, r.bodyText⟩]
    if respOk r.status then (true, tried')
    else
      if r.status = 404 then
        match fallbackOf r with
        | some fb =>
          match tryFallbackBatch net (normalizeCandidates fb) tried' with
          | (some t2, _) => (true, t2)
          | (none, t2) => tryFirstBatch net rest t2
        | none => tryFirstBatch net rest tried'
      else tryFirstBatch net rest tried'

/-- The thrown diagnostic: one line `"<status> <url> -> <data>"` per
attempt, joined after the `Falha ao enviar (tentativas):` banner. -/
def sendErrMessage (tried : List Tried) : String :=
  "Falha ao enviar (tentativas):\n" ++
    String.intercalate "\n"
      (tried.map fun t => toString t.status ++ " " ++ t.url ++ " -> " ++ t.data)

/-- Model of `sendViaUazapi` (route.ts lines 150–228): resolves the endpoint from
`apiBase`, attempts candidates (following 404 fallback hints), returns
`.ok` on the first 2xx and otherwise throws the diagnostic that
enumerates every attempt. -/
def sendViaUazapi (net : String → Resp) (apiBase : String) : Except String Unit :=
  match tryFirstBatch net (normalizeCandidates apiBase) [] with
  | (true, _) => .ok ()
  | (false, tried) => .error (sendErrMessage tried)

/-- The full attempt trace of a `sendViaUazapi` call (the contents of
the source's `tried` accumulator when the call ends). -/
def sendAttempts (net : String → Resp) (apiBase : String) : List Tried :=
  (tryFirstBatch net (normalizeCandidates apiBase) []).2

/-! ### Message rows and `buildRows` (route.ts lines 20–53, 274–311) -/

inductive MessageStatus
  | queued | sending | sent | delivered | read | replied | error
deriving DecidableEq, Repr

/-- Model of `Contact` (route.ts line 20): `{ nome?: string; numero: string }`. -/
structure Contact where
  nome : Option String
  numero : String
deriving DecidableEq, Repr

/-- Model of `String.prototype.replaceAll`: scan left to right; on a
match of `pat`, emit `rep` and resume after the matched section (the
replacement itself is not rescanned).  The fuel argument is the length
of the scanned list, which strictly bounds the recursion; the source
never calls `replaceAll` with an empty pattern. -/
def replAux (pat rep : List Char) : Nat → List Char → List Char
  | 0, l => l
  | _ + 1, [] => []
  | fuel + 1, c :: rest =>
    if pat.isPrefixOf (c :: rest) ∧ pat ≠ [] then
      rep ++ replAux pat rep fuel ((c :: rest).drop pat.length)
    else c :: replAux pat rep fuel rest

/-- JS `s.replaceAll(pat, rep)`. -/
def replaceAll (s pat rep : String) : String :=
  ⟨replAux pat.data rep.data s.data.length s.data⟩

/-- Rendering of one template against one contact (route.ts lines
292–294): `t.replaceAll("{{nome}}", nome || "").replaceAll("{{numero}}", numero || "")`. -/
def renderTpl (c : Contact) (t : String) : String :=
  replaceAll (replaceAll t "{{nome}}" (c.nome.getD "")) "{{numero}}" c.numero

/-- Model of `MessageRowInsert` (route.ts lines 31–42); `created_at` and
`scheduled_at` as epoch milliseconds. -/
structure MessageRowInsert where
  batch_id : Int
  lista_id : Option Int
  lista_nome : Option String
  numero : String
  status : MessageStatus
  error : Option String
  payload : String
  created_at : Int
  scheduled_at : Int
deriving DecidableEq, Repr

/-- Model of `buildRows` (route.ts lines 274–311).  `createdAtMs` models the
`new Date()` wall-clock read used for `created_at`. -/
def buildRows (batchId : Int) (contacts : List Contact) (textPool : List String)
    (startAtMs : Int) (cadenceDays : List Int)
    (listaId : Option Int) (listaNome : Option String) (createdAtMs : Int) :
    List MessageRowInsert :=
  contacts.flatMap fun c =>
    let numero := norm c.numero
    if numero = "" then []
    else
      let moments := startAtMs :: cadenceDays.map fun d => startAtMs + d * 86400000
      moments.flatMap fun whenMs =>
        textPool.map fun t =>
          { batch_id := batchId
            lista_id := listaId
            lista_nome := listaNome
            numero := numero
            status := .queued
            error := none
            payload := renderTpl c t
            created_at := createdAtMs
            scheduled_at := whenMs }

/-! ### Jitter / pause scheduling `applyJitterAndPause`
(route.ts lines 342–385)

The rows are the `(id, scheduled_at)` pairs the `SELECT ... ORDER BY
scheduled_at ASC` returns; the function produces the `(id, new
scheduled_at)` pairs written back.  `rs n` is the `Math.random()` draw
used for row number `n` (rows are counted from 0 by the source's
`count`). -/

/-- The gap added for one row (route.ts lines 366–369). -/
def jitterGap (minGapMs maxGapMs : Int) (r : ℚ) : Int :=
  if minGapMs ≥ maxGapMs then max 0 minGapMs
  else max 0 (rand minGapMs maxGapMs r)

/-- The `for (const r of rows)` loop body (route.ts lines 364–384). -/
def jitterLoop (minGapMs maxGapMs pauseEvery pauseDurationMs : Int) (rs : Nat → ℚ) :
    Int → Nat → List (Int × Int) → List (Int × Int)
  | _, _, [] => []
  | cursor, count, row :: rest =>
    let cursor' :=
      if 0 < count then
        let c := cursor + jitterGap minGapMs maxGapMs (rs count)
        if 0 < pauseEvery ∧ (count : Int) % pauseEvery = 0 then
          c + max 0 pauseDurationMs
        else c
      else cursor
    (row.1, cursor') :: jitterLoop minGapMs maxGapMs pauseEvery pauseDurationMs rs cursor' (count + 1) rest

/-- Model of `applyJitterAndPause` (route.ts lines 342–385): cursor starts at
`Math.max(now(), rows[0].scheduled_at)` and the loop rewrites every
row's schedule to the advancing cursor. -/
def applyJitterAndPause (rows : List (Int × Int)) (nowMs minGapMs maxGapMs pauseEvery pauseDurationMs : Int)
    (rs : Nat → ℚ) : List (Int × Int) :=
  match rows with
  | [] => []
  | r0 :: _ =>
    jitterLoop minGapMs maxGapMs pauseEvery pauseDurationMs rs (max nowMs r0.2) 0 rows

/-- The argument clamping the POST handler performs before calling
`applyJitterAndPause` (route.ts lines 564–571):
`(minGap, maxGap, pauseEvery, pauseDurationMs)`. -/
def postClampedArgs (delayMsMin delayMsMax pauseEvery pauseDurationMs : Int) :
    Int × Int × Int × Int :=
  (max 0 (min delayMsMin delayMsMax), max delayMsMin delayMsMax,
    max 0 pauseEvery, max 0 pauseDurationMs)

/-! ### The message store and `processChunk` (route.ts lines 388–449)

A stored message row (`MessageRowSelect`, route.ts lines 44–53).  The
store itself is the list of rows in insertion order.  Wall-clock reads
are served by `clk : Nat → Int`, one value per `now()` / `Date.now()` /
`new Date()` call, and transport outcomes by `send : Nat → Option
String` (`none` = the attempt succeeded, `some m` = `sendViaUazapi`
threw with message `m`), one value per attempt. -/

structure Msg where
  id : Int
  batch_id : Int
  numero : String
  status : MessageStatus
  error : Option String
  scheduled_at : Int
  payload : String
  sent_at : Option Int
deriving DecidableEq, Repr

/-- Apply an update to the single row matched by `.eq("id", i)`. -/
def updateMsg (st : List Msg) (i : Int) (f : Msg → Msg) : List Msg :=
  st.map fun m => if m.id = i then f m else m

/-- Stable insertion into a list sorted by `scheduled_at`. -/
def insertBySched (m : Msg) : List Msg → List Msg
  | [] => [m]
  | x :: xs => if x.scheduled_at ≤ m.scheduled_at then x :: insertBySched m xs
               else m :: x :: xs

/-- Stable sort by `scheduled_at` ascending (the `ORDER BY`). -/
def sortBySched : List Msg → List Msg
  | [] => []
  | m :: rest => insertBySched m (sortBySched rest)

/-- The job selection (route.ts lines 399–406): rows of the batch with
status `queued` or `sending` and `scheduled_at ≤ nowIso`, ordered by
`scheduled_at` ascending, limited to `limit`. -/
def selectJobs (st : List Msg) (batchId : Int) (nowIso : Int) (limit : Nat) : List Msg :=
  (sortBySched (st.filter fun m =>
    m.batch_id = batchId ∧ (m.status = .queued ∨ m.status = .sending) ∧
      m.scheduled_at ≤ nowIso)).take limit

/-- The retry loop (route.ts lines 424–432): up to `n` attempts, each
consuming one `send` outcome; returns `(ok, last, next attempt index)`. -/
def attemptLoop (send : Nat → Option String) : Nat → Option String → Nat → Bool × Option String × Nat
  | 0, last, a => (false, last, a)
  | n + 1, last, a =>
    match send a with
    | none => (true, last, a + 1)
    | some m => attemptLoop send n (some m) (a + 1)

inductive ExitReason
  | noJobs | timeBudget
deriving DecidableEq, Repr

structure ChunkRes where
  processed : Nat
  reason : ExitReason
deriving DecidableEq, Repr

/-- The `for (const j of jobs)` loop (route.ts lines 412–446).  Returns
`.inr` when the body returns out of `processChunk` (deadline hit after a
message) and `.inl (st, k, a)` when the iteration's jobs are all
processed and control goes back to the `while` test. -/
def processJobs (send : Nat → Option String) (clk : Nat → Int)
    (startClock timeBudgetMs : Int) (jobsLen : Nat) :
    List Msg → List Msg → Nat → Nat →
    (List Msg × Nat × Nat) ⊕ (ChunkRes × List Msg)
  | [], st, k, a => .inl (st, k, a)
  | j :: rest, st, k, a =>
    let st1 := updateMsg st j.id fun m => { m with status := .sending, error := none }
    let att := attemptLoop send 3 none a
    let ok := att.1
    let last := att.2.1
    let a' := att.2.2
    let stepK : List Msg × Nat :=
      if ok then
        (updateMsg st1 j.id fun m =>
          { m with status := .sent, error := none, sent_at := some (clk k) }, k + 1)
      else
        (updateMsg st1 j.id fun m =>
          { m with status := .error, error := some ((last.getD "null").take 2000) }, k)
    let st2 := stepK.1
    let k' := stepK.2
    if timeBudgetMs ≤ clk k' - startClock then
      .inr (⟨jobsLen, .timeBudget⟩, st2)
    else
      processJobs send clk startClock timeBudgetMs jobsLen rest st2 (k' + 1) a'

/-- The `while (now() - startClock < timeBudgetMs)` loop (route.ts lines
396–448), with explicit fuel (`none` = fuel ran out before the source
loop exited). -/
def processChunkLoop (send : Nat → Option String) (clk : Nat → Int)
    (batchId : Int) (limit : Nat) (startClock timeBudgetMs slackMs : Int) :
    Nat → List Msg → Nat → Nat → Option (ChunkRes × List Msg)
  | 0, _, _, _ => none
  | fuel + 1, st, k, a =>
    if clk k - startClock < timeBudgetMs then
      let nowIso := clk (k + 1) + slackMs
      let jobs := selectJobs st batchId nowIso limit
      if jobs.isEmpty then some (⟨0, .noJobs⟩, st)
      else
        match processJobs send clk startClock timeBudgetMs jobs.length jobs st (k + 2) a with
        | .inr (res, st') => some (res, st')
        | .inl (st', k', a') =>
          processChunkLoop send clk batchId limit startClock timeBudgetMs slackMs fuel st' k' a'
    else some (⟨0, .timeBudget⟩, st)

/-- Model of `processChunk(batchId, limit = 15, timeBudgetMs = 18000)` (route.ts
lines 388–449); `slackMs = 1500`. -/
def processChunk (send : Nat → Option String) (clk : Nat → Int)
    (batchId : Int) (limit : Nat) (timeBudgetMs : Int) (fuel : Nat) (st : List Msg) :
    Option (ChunkRes × List Msg) :=
  let startClock := clk 0
  processChunkLoop send clk batchId limit startClock timeBudgetMs 1500 fuel st 1 0

/-! ### `GET` status aggregation (route.ts lines 452–479)

The handler selects `status, error` of the batch's messages and returns
pure aggregates; it performs no store mutation, so it is a pure
function of the store. -/

/-- JS truthiness of the `error` column: `!!r.error`. -/
def truthyErr (e : Option String) : Bool :=
  match e with
  | none => false
  | some s => s ≠ ""

structure StatusRes where
  sent : Nat
  failed : Nat
  queued : Nat
  inProgress : Bool
  errors : List (MessageStatus × Option String)
deriving DecidableEq, Repr

/-- Model of `Array.prototype.slice(-10)`: the last (up to) 10 elements. -/
def lastTen (l : List (MessageStatus × Option String)) : List (MessageStatus × Option String) :=
  l.drop (l.length - 10)

/-- The `GET` handler's aggregation (route.ts lines 456–478) over the
`status, error` projection of the batch's rows. -/
def getStatus (st : List Msg) (batchId : Int) : StatusRes :=
  let data := (st.filter fun m => m.batch_id = batchId).map fun m => (m.status, m.error)
  let queued := (data.filter fun r => r.1 = .queued ∨ r.1 = .sending).length
  { sent := (data.filter fun r => r.1 = .sent).length
    failed := (data.filter fun r => r.1 = .error).length
    queued := queued
    inProgress := decide (0 < queued)
    errors := lastTen (data.filter fun r => truthyErr r.2) }

/-! ## Helper lemmas about the jitter scheduler -/

/-- The per-row gap is never negative, whatever the parameters. -/
lemma jitterGap_nonneg (mg Mg : Int) (r : ℚ) : 0 ≤ jitterGap mg Mg r := by
  unfold jitterGap
  split <;> exact le_max_left 0 _

/-- Unfolding of `rand` once the two bounds are ordered. -/
lemma rand_eq (a b : Int) (hab : a ≤ b) (r : ℚ) :
    rand a b r = max a 0 + ⌊r * ((b - max a 0 + 1 : Int) : ℚ)⌋ := by
  simp [rand, min_eq_left hab, max_eq_right hab]

/-- Bounds for `rand` when the upper bound is nonnegative. -/
lemma rand_bounds_pos (a b : Int) (r : ℚ) (h0 : 0 ≤ r) (h1 : r < 1)
    (hab : a < b) (hb : 0 ≤ b) : max a 0 ≤ rand a b r ∧ rand a b r ≤ b := by
  rw [rand_eq a b hab.le r]
  set mn := max a 0 with hmn
  have hmnb : mn ≤ b := max_le hab.le hb
  have hkq0 : (0 : ℚ) < ((b - mn + 1 : Int) : ℚ) := by
    exact_mod_cast (by omega : (0 : Int) < b - mn + 1)
  have hfl0 : (0 : Int) ≤ ⌊r * ((b - mn + 1 : Int) : ℚ)⌋ := by
    apply Int.le_floor.mpr
    exact_mod_cast mul_nonneg h0 hkq0.le
  have hflt : ⌊r * ((b - mn + 1 : Int) : ℚ)⌋ < b - mn + 1 := by
    apply Int.floor_lt.mpr
    have h2 := mul_lt_mul_of_pos_right h1 hkq0
    rw [one_mul] at h2
    exact_mod_cast h2
  omega

/-- When both bounds are negative, `rand` is nonpositive. -/
lemma rand_nonpos (a b : Int) (r : ℚ) (h0 : 0 ≤ r) (hab : a < b) (hb : b < 0) :
    rand a b r ≤ 0 := by
  rw [rand_eq a b hab.le r]
  have hmn : max a 0 = 0 := max_eq_right (by omega)
  rw [hmn]
  have hkq : ((b - 0 + 1 : Int) : ℚ) ≤ 0 := by
    exact_mod_cast (by omega : (b - 0 + 1 : Int) ≤ 0)
  have hmul : r * ((b - 0 + 1 : Int) : ℚ) ≤ 0 := by
    have := mul_le_mul_of_nonneg_left hkq h0
    simpa using this
  have : ⌊r * ((b - 0 + 1 : Int) : ℚ)⌋ ≤ 0 := Int.floor_nonpos hmul
  omega

/-- The gap drawn in the `minGapMs < maxGapMs` branch lies between the
clamped bounds. -/
lemma jitterGap_bounds (mg Mg : Int) (r : ℚ) (h0 : 0 ≤ r) (h1 : r < 1)
    (hlt : mg < Mg) : max 0 mg ≤ jitterGap mg Mg r ∧ jitterGap mg Mg r ≤ max 0 Mg := by
  unfold jitterGap
  rw [if_neg (not_le.mpr hlt)]
  by_cases hb : 0 ≤ Mg
  · obtain ⟨hlo, hhi⟩ := rand_bounds_pos mg Mg r h0 h1 hlt hb
    constructor
    · calc max 0 mg = max mg 0 := max_comm 0 mg
        _ ≤ rand mg Mg r := hlo
        _ ≤ max 0 (rand mg Mg r) := le_max_right _ _
    · have h2 : rand mg Mg r ≤ max 0 Mg := le_trans hhi (le_max_right 0 Mg)
      exact max_le (le_max_left 0 Mg) h2
  · push_neg at hb
    have hr := rand_nonpos mg Mg r h0 hlt hb
    have hg : max 0 (rand mg Mg r) = 0 := max_eq_left hr
    rw [hg]
    have hmg : mg ≤ 0 := by omega
    constructor
    · exact le_of_eq (max_eq_left hmg)
    · exact le_max_left 0 Mg

/-- One step of the loop never moves the cursor backwards. -/
lemma jitterStep_ge (mg Mg pe pd : Int) (rs : Nat → ℚ) (cursor : Int) (count : Nat) :
    cursor ≤ (if 0 < count then
      (let c := cursor + jitterGap mg Mg (rs count)
       if 0 < pe ∧ (count : Int) % pe = 0 then c + max 0 pd else c)
      else cursor) := by
  have hg := jitterGap_nonneg mg Mg (rs count)
  have hp : (0 : Int) ≤ max 0 pd := le_max_left 0 pd
  split_ifs <;> simp <;> omega

/-- The head of the rewritten schedule is at least the starting cursor. -/
lemma jitterLoop_head_ge (mg Mg pe pd : Int) (rs : Nat → ℚ) :
    ∀ (l : List (Int × Int)) (cursor : Int) (count : Nat) (p : Int × Int),
      (jitterLoop mg Mg pe pd rs cursor count l).head? = some p → cursor ≤ p.2 := by
  intro l cursor count p h
  cases l with
  | nil => simp [jitterLoop] at h
  | cons row rest =>
    rw [jitterLoop] at h
    simp only [List.head?_cons, Option.some.injEq] at h
    subst h
    exact jitterStep_ge mg Mg pe pd rs cursor count

/-- Every rewritten schedule entry is at least the starting cursor. -/
lemma jitterLoop_all_ge (mg Mg pe pd : Int) (rs : Nat → ℚ) :
    ∀ (l : List (Int × Int)) (cursor : Int) (count : Nat) (p : Int × Int),
      p ∈ jitterLoop mg Mg pe pd rs cursor count l → cursor ≤ p.2 := by
  intro l
  induction l with
  | nil => intro cursor count p h; simp [jitterLoop] at h
  | cons row rest ih =>
    intro cursor count p h
    rw [jitterLoop] at h
    rcases List.mem_cons.mp h with h | h
    · subst h
      exact jitterStep_ge mg Mg pe pd rs cursor count
    · have hstep := jitterStep_ge mg Mg pe pd rs cursor count
      have := ih _ (count + 1) p h
      omega

/-- The rewritten schedule is non-decreasing in processing order. -/
lemma jitterLoop_chain (mg Mg pe pd : Int) (rs : Nat → ℚ) :
    ∀ (l : List (Int × Int)) (cursor : Int) (count : Nat),
      List.Chain' (fun a b : Int × Int => a.2 ≤ b.2)
        (jitterLoop mg Mg pe pd rs cursor count l) := by
  intro l
  induction l with
  | nil => intro cursor count; simp [jitterLoop]
  | cons row rest ih =>
    intro cursor count
    rw [jitterLoop]
    apply List.chain'_cons'.mpr
    refine ⟨?_, ih _ (count + 1)⟩
    intro b hb
    exact jitterLoop_head_ge mg Mg pe pd rs rest _ (count + 1) b hb

/-- C2: the jitter pass yields a non-decreasing schedule whose first
entry is at least `now()`.  Stated for an arbitrary row list (in
particular for the rows as loaded, ascending by pre-jitter scheduled
time, which is the order the loop processes them in). -/
theorem applyJitterAndPause_monotone
    (rows : List (Int × Int)) (nowMs minGapMs maxGapMs pauseEvery pauseDurationMs : Int)
    (rs : Nat → ℚ) :
    List.Chain' (fun a b : Int × Int => a.2 ≤ b.2)
      (applyJitterAndPause rows nowMs minGapMs maxGapMs pauseEvery pauseDurationMs rs) ∧
    ∀ p : Int × Int,
      (applyJitterAndPause rows nowMs minGapMs maxGapMs pauseEvery pauseDurationMs rs).head? = some p →
      nowMs ≤ p.2 := by
  cases rows with
  | nil => simp [applyJitterAndPause]
  | cons r0 rest =>
    rw [applyJitterAndPause]
    refine ⟨jitterLoop_chain _ _ _ _ _ _ _ _, ?_⟩
    intro p hp
    have h1 := jitterLoop_head_ge minGapMs maxGapMs pauseEvery pauseDurationMs rs
      (r0 :: rest) (max nowMs r0.2) 0 p hp
    have h2 : nowMs ≤ max nowMs r0.2 := le_max_left _ _
    omega

/-- Witness for C2 at a concrete batch: two rows scheduled at 5 and 7,
`now = 3`, gap range `[1, 2]`, no pause. -/
theorem applyJitterAndPause_monotone_witness :
    List.Chain' (fun a b : Int × Int => a.2 ≤ b.2)
      (applyJitterAndPause [(1, 5), (2, 7)] 3 1 2 0 0 fun _ => (1 : ℚ)/2) ∧
    (3 : Int) ≤ ((1, 5) : Int × Int).2 :=
  ⟨(applyJitterAndPause_monotone [(1, 5), (2, 7)] 3 1 2 0 0 fun _ => (1 : ℚ)/2).1,
    (applyJitterAndPause_monotone [(1, 5), (2, 7)] 3 1 2 0 0 fun _ => (1 : ℚ)/2).2
      (1, 5) (by decide)⟩

/-- Head of the loop output for a row after the first: the new schedule
is the cursor advanced by the jitter gap, plus the pause duration
(clamped at 0) when `pauseEvery > 0` divides the running count. -/
lemma jitterLoop_head_eq (mg Mg pe pd : Int) (rs : Nat → ℚ) (cursor : Int) (count : Nat)
    (row : Int × Int) (rest : List (Int × Int)) (hcount : 0 < count) :
    (jitterLoop mg Mg pe pd rs cursor count (row :: rest)).head? =
      some (row.1, cursor + jitterGap mg Mg (rs count) +
        (if 0 < pe ∧ (count : Int) % pe = 0 then max 0 pd else 0)) := by
  rw [jitterLoop]
  simp only [List.head?_cons, Option.some.injEq, Prod.mk.injEq, true_and]
  rw [if_pos hcount]
  split_ifs with h
  · ring
  · ring

/-- Evaluation of `rand` at the draw `0`. -/
lemma rand_at_zero (a b : Int) (hab : a ≤ b) : rand a b 0 = max a 0 := by
  rw [rand_eq a b hab]
  simp

/-- C3 counterexample: with `minGapMs = -10 < maxGapMs = -5` the loop
advances the cursor by `0` between the two rows (here for the valid
`Math.random()` draw `0`), and `0` does not lie in the inclusive range
`[-10, -5]` of the two bounds, contradicting the claim that the advance
is drawn from that range. -/
theorem jitterGap_range_cex :
    (applyJitterAndPause [(1, 0), (2, 0)] 0 (-10) (-5) 0 0 fun _ => (0 : ℚ)).map Prod.snd
        = [0, 0] ∧
    ¬((-10 : Int) ≤ 0 - 0 ∧ (0 - 0 : Int) ≤ -5) := by
  have hr : rand (-10) (-5) (0 : ℚ) = 0 := by
    rw [rand_at_zero (-10) (-5) (by norm_num)]
    norm_num
  have hg : jitterGap (-10) (-5) (0 : ℚ) = 0 := by
    rw [jitterGap, if_neg (by norm_num), hr]
    norm_num
  constructor
  · rw [applyJitterAndPause, jitterLoop, jitterLoop, jitterLoop]
    norm_num [hg]
  · decide

/-- C3 (amended): for each message after the first, the pre-pause cursor
advance equals `max 0 minGapMs` when `minGapMs ≥ maxGapMs`, otherwise it
lies in `[max 0 minGapMs, max 0 maxGapMs]` — which is exactly the
inclusive range `[minGapMs, maxGapMs]` whenever `0 ≤ minGapMs`; the new
schedule of such a message is `cursor + gap` plus `max 0 pauseDurationMs`
exactly when `pauseEveryN > 0` divides the running count, so with
`pauseEveryN = 5` and `pauseDurationMs ≥ 0` the 6th message's advance
includes at least the pause duration on top of its jitter gap. -/
theorem jitterGap_spec (mg Mg : Int) (r : ℚ) (h0 : 0 ≤ r) (h1 : r < 1) :
    ((mg ≥ Mg → jitterGap mg Mg r = max 0 mg) ∧
     (mg < Mg → max 0 mg ≤ jitterGap mg Mg r ∧ jitterGap mg Mg r ≤ max 0 Mg) ∧
     (0 ≤ mg → mg < Mg → mg ≤ jitterGap mg Mg r ∧ jitterGap mg Mg r ≤ Mg)) ∧
    (∀ (pe pd : Int) (rs : Nat → ℚ) (cursor : Int) (count : Nat)
       (row : Int × Int) (rest : List (Int × Int)), 0 < count →
       (jitterLoop mg Mg pe pd rs cursor count (row :: rest)).head? =
         some (row.1, cursor + jitterGap mg Mg (rs count) +
           (if 0 < pe ∧ (count : Int) % pe = 0 then max 0 pd else 0))) ∧
    (∀ (pd : Int) (rs : Nat → ℚ) (cursor : Int)
       (row : Int × Int) (rest : List (Int × Int)), 0 ≤ pd →
       ∀ p : Int × Int,
         (jitterLoop mg Mg 5 pd rs cursor 5 (row :: rest)).head? = some p →
         cursor + jitterGap mg Mg (rs 5) + pd ≤ p.2) := by
  refine ⟨⟨?_, ?_, ?_⟩, ?_, ?_⟩
  · intro h
    simp [jitterGap, if_pos h]
  · intro hlt
    exact jitterGap_bounds mg Mg r h0 h1 hlt
  · intro hmg hlt
    obtain ⟨hlo, hhi⟩ := jitterGap_bounds mg Mg r h0 h1 hlt
    have hMg : (0 : Int) ≤ Mg := le_trans hmg hlt.le
    rw [max_eq_right hmg] at hlo
    rw [max_eq_right hMg] at hhi
    exact ⟨hlo, hhi⟩
  · intro pe pd rs cursor count row rest hcount
    exact jitterLoop_head_eq mg Mg pe pd rs cursor count row rest hcount
  · intro pd rs cursor row rest hpd p hp
    rw [jitterLoop_head_eq mg Mg 5 pd rs cursor 5 row rest (by norm_num)] at hp
    have hcond : (0 : Int) < 5 ∧ ((5 : Nat) : Int) % 5 = 0 := by decide
    rw [if_pos hcond] at hp
    have hmax : pd ≤ max 0 pd := le_max_right 0 pd
    cases hp
    simp only
    omega

/-- Witness for the amended C3 at `minGapMs = 1 < maxGapMs = 3` and the
draw `1/2`: the advance lies in `[1, 3]`. -/
theorem jitterGap_spec_witness :
    (1 : Int) ≤ jitterGap 1 3 ((1 : ℚ)/2) ∧ jitterGap 1 3 ((1 : ℚ)/2) ≤ 3 :=
  (jitterGap_spec 1 3 ((1 : ℚ)/2) (by norm_num) (by norm_num)).1.2.2
    (by norm_num) (by norm_num)

/-- C10 counterexample: caller input `delayMsMin = delayMsMax = 0` is
clamped to `(0, 0, 0, 0)`, and the jitter pass then rewrites a message
originally scheduled one cadence day later (`86400000`) down to `0`,
moving its scheduled time backward by a day. -/
theorem jitter_moves_backward_cex :
    postClampedArgs 0 0 0 0 = (0, 0, 0, 0) ∧
    applyJitterAndPause [(1, 0), (2, 86400000)] 0 0 0 0 0 (fun _ => (1 : ℚ)/2)
        = [(1, 0), (2, 0)] ∧
    (0 : Int) < 86400000 := by
  refine ⟨by decide, by decide, by decide⟩

/-- C10 (amended): the POST handler clamps the caller's delay and pause
inputs exactly as claimed, the clamped minimum gap and pause values are
nonnegative, `rand` as invoked on the clamped bounds never returns a
negative value, and the jitter pass never moves the *cursor* backward:
the resulting schedule is non-decreasing in processing order and every
rewritten time is at least `max(now, first message's original scheduled
time)` — but a message after the first may be rescheduled earlier than
its own pre-jitter time. -/
theorem post_clamp_jitter_spec (dMin dMax pEvery pDur mn mx pe pd : Int)
    (h : postClampedArgs dMin dMax pEvery pDur = (mn, mx, pe, pd)) :
    mn = max 0 (min dMin dMax) ∧ mx = max dMin dMax ∧
    pe = max 0 pEvery ∧ pd = max 0 pDur ∧
    0 ≤ mn ∧ 0 ≤ pe ∧ 0 ≤ pd ∧
    (∀ r : ℚ, 0 ≤ r → r < 1 → mn < mx → 0 ≤ rand mn mx r) ∧
    (∀ (rows : List (Int × Int)) (nowMs : Int) (rs : Nat → ℚ),
      List.Chain' (fun a b : Int × Int => a.2 ≤ b.2)
        (applyJitterAndPause rows nowMs mn mx pe pd rs)) ∧
    (∀ (r0 : Int × Int) (rest : List (Int × Int)) (nowMs : Int) (rs : Nat → ℚ)
       (p : Int × Int),
      p ∈ applyJitterAndPause (r0 :: rest) nowMs mn mx pe pd rs →
      nowMs ≤ p.2 ∧ max nowMs r0.2 ≤ p.2) := by
  rw [postClampedArgs, Prod.mk.injEq, Prod.mk.injEq, Prod.mk.injEq] at h
  obtain ⟨h1, h2, h3, h4⟩ := h
  have hmn : 0 ≤ mn := h1 ▸ le_max_left _ _
  have hpe : 0 ≤ pe := h3 ▸ le_max_left _ _
  have hpd : 0 ≤ pd := h4 ▸ le_max_left _ _
  refine ⟨h1.symm, h2.symm, h3.symm, h4.symm, hmn, hpe, hpd, ?_, ?_, ?_⟩
  · intro r hr0 hr1 hlt
    have hb : (0 : Int) ≤ mx := le_trans hmn hlt.le
    have := (rand_bounds_pos mn mx r hr0 hr1 hlt hb).1
    have hmn' : max mn 0 = mn := max_eq_left hmn
    omega
  · intro rows nowMs rs
    cases rows with
    | nil => simp [applyJitterAndPause]
    | cons r0 rest =>
      rw [applyJitterAndPause]
      exact jitterLoop_chain mn mx pe pd rs (r0 :: rest) (max nowMs r0.2) 0
  · intro r0 rest nowMs rs p hp
    rw [applyJitterAndPause] at hp
    have := jitterLoop_all_ge mn mx pe pd rs (r0 :: rest) (max nowMs r0.2) 0 p hp
    constructor
    · have : nowMs ≤ max nowMs r0.2 := le_max_left _ _
      omega
    · exact this

/-- Witness for the amended C10: caller input `(-5, 3, -2, -7)` clamps
to `(0, 3, 0, 0)`, and `rand` on the clamped bounds is nonnegative for
the draw `1/2`. -/
theorem post_clamp_jitter_spec_witness : (0 : Int) ≤ rand 0 3 ((1 : ℚ)/2) :=
  (post_clamp_jitter_spec (-5) 3 (-2) (-7) 0 3 0 0 (by decide)).2.2.2.2.2.2.2.1
    ((1 : ℚ)/2) (by norm_num) (by norm_num) (by norm_num)

/-! ## Helper lemmas about `buildRows` -/

/-- Unfolding of `buildRows` over the first contact. -/
lemma buildRows_cons (batchId : Int) (c : Contact) (cs : List Contact) (tp : List String)
    (s : Int) (cd : List Int) (li : Option Int) (ln : Option String) (nw : Int) :
    buildRows batchId (c :: cs) tp s cd li ln nw =
      (if norm c.numero = "" then []
       else (s :: cd.map fun d => s + d * 86400000).flatMap fun whenMs =>
         tp.map fun t =>
           ({ batch_id := batchId, lista_id := li, lista_nome := ln, numero := norm c.numero,
              status := .queued, error := none, payload := renderTpl c t,
              created_at := nw, scheduled_at := whenMs } : MessageRowInsert)) ++
      buildRows batchId cs tp s cd li ln nw := by
  rw [buildRows, buildRows, List.flatMap_cons]

/-- Length of a `flatMap` whose inner lists all have the same length. -/
lemma length_flatMap_const {α β γ : Type} (l : List α) (tp : List β) (f : α → β → γ) :
    (l.flatMap fun w => tp.map (f w)).length = l.length * tp.length := by
  induction l with
  | nil => simp
  | cons w ws ih =>
    rw [List.flatMap_cons, List.length_append, List.length_map, ih, List.length_cons]
    ring

/-- Row count produced by `buildRows`. -/
lemma buildRows_length (batchId : Int) (contacts : List Contact) (tp : List String)
    (s : Int) (cd : List Int) (li : Option Int) (ln : Option String) (nw : Int) :
    (buildRows batchId contacts tp s cd li ln nw).length =
      (contacts.filter fun c => norm c.numero ≠ "").length * ((1 + cd.length) * tp.length) := by
  induction contacts with
  | nil => simp [buildRows]
  | cons c cs ih =>
    rw [buildRows_cons, List.length_append, ih, List.filter_cons]
    by_cases h : norm c.numero = ""
    · simp [h]
    · rw [if_neg h, length_flatMap_const]
      rw [if_pos (show decide (norm c.numero ≠ "") = true by simp [h])]
      simp only [List.length_cons, List.length_map]
      ring

/-- Every row built is scheduled either at the anchor itself or at the
anchor shifted by one of the cadence offsets in days. -/
lemma buildRows_sched (batchId : Int) (contacts : List Contact) (tp : List String)
    (s : Int) (cd : List Int) (li : Option Int) (ln : Option String) (nw : Int) :
    ∀ row ∈ buildRows batchId contacts tp s cd li ln nw,
      row.scheduled_at = s ∨ ∃ d ∈ cd, row.scheduled_at = s + d * 86400000 := by
  intro row hrow
  rw [buildRows] at hrow
  rw [List.mem_flatMap] at hrow
  obtain ⟨c, _, hrow⟩ := hrow
  by_cases h : norm c.numero = ""
  · simp only [h, if_pos] at hrow
    simp at hrow
  · simp only [if_neg h, List.mem_flatMap, List.mem_map] at hrow
    obtain ⟨w, hw, t, _, heq⟩ := hrow
    rcases List.mem_cons.mp hw with h0 | hmem
    · left
      rw [← heq, ← h0]
    · right
      obtain ⟨d, hd, hdw⟩ := List.mem_map.mp hmem
      exact ⟨d, hd, by rw [← heq, ← hdw]⟩

/-- C1: for a create-dispatch request with non-empty template pool and
contact list, `buildRows` emits exactly
`|validContacts| × (1 + |cadenceDays|) × |templates|` rows, where the
valid contacts are those whose address normalizes to a non-empty digit
string, and every row is anchored at `startAtMs` or at
`startAtMs + d·86 400 000` for one of the cadence offsets `d`. -/
theorem buildRows_count_and_schedule (batchId : Int) (contacts : List Contact)
    (textPool : List String) (startAtMs : Int) (cadenceDays : List Int)
    (listaId : Option Int) (listaNome : Option String) (createdAtMs : Int)
    (htp : textPool ≠ []) (hc : contacts ≠ []) :
    (buildRows batchId contacts textPool startAtMs cadenceDays listaId listaNome createdAtMs).length
      = (contacts.filter fun c => norm c.numero ≠ "").length
          * (1 + cadenceDays.length) * textPool.length ∧
    ∀ row ∈ buildRows batchId contacts textPool startAtMs cadenceDays listaId listaNome createdAtMs,
      row.scheduled_at = startAtMs ∨
        ∃ d ∈ cadenceDays, row.scheduled_at = startAtMs + d * 86400000 := by
  constructor
  · rw [buildRows_length]
    ring
  · exact buildRows_sched batchId contacts textPool startAtMs cadenceDays listaId listaNome createdAtMs

/-- Witness for C1 at one contact, one template, one cadence offset:
2 rows are built. -/
theorem buildRows_count_and_schedule_witness :
    (buildRows 1 [⟨some "Ana", "11999998888"⟩] ["Hi {{nome}}"] 0 [1] none none 0).length
      = (([⟨some "Ana", "11999998888"⟩] : List Contact).filter fun c => norm c.numero ≠ "").length
          * (1 + ([1] : List Int).length) * (["Hi {{nome}}"] : List String).length :=
  (buildRows_count_and_schedule 1 [⟨some "Ana", "11999998888"⟩] ["Hi {{nome}}"] 0 [1]
    none none 0 (by decide) (by decide)).1

/-! ## Helper lemmas about `digits` and `norm` -/

/-- Unfolding of `norm`. -/
lemma norm_cases (n : String) :
    norm n = if digits n = "" then ""
      else if startsWith55 (digits n) then digits n else "55" ++ digits n := rfl

/-- Every character kept by `digits` is a decimal digit. -/
lemma digits_all_isDigit (v : String) : ∀ c ∈ (digits v).data, c.isDigit = true := by
  intro c hc
  exact (List.mem_filter.mp hc).2

/-- The function `digits` leaves digit-only strings unchanged. -/
lemma digits_of_digits_only (s : String) (h : ∀ c ∈ s.data, c.isDigit = true) :
    digits s = s := by
  cases s with
  | mk data =>
    show String.mk (data.filter fun c => c.isDigit) = String.mk data
    rw [List.filter_eq_self.mpr h]

/-- Character list of the country-code prefixed string. -/
lemma data_55_append (t : String) : ("55" ++ t).data = '5' :: '5' :: t.data := by
  rw [String.data_append]
  rfl

/-- C7: `norm` strips every non-digit character (its output is all
digits), prefixes the country code `55` to a digit string that does not
already start with `55`, a contact whose address normalizes to empty
contributes no message row (it is skipped silently), and `norm` is
idempotent. -/
theorem norm_spec :
    (∀ n : String, ∀ c ∈ (norm n).data, c.isDigit = true) ∧
    (∀ n : String, digits n ≠ "" → startsWith55 (digits n) = false →
      norm n = "55" ++ digits n) ∧
    (∀ (batchId : Int) (c : Contact) (cs : List Contact) (tp : List String) (s : Int)
       (cd : List Int) (li : Option Int) (ln : Option String) (nw : Int),
      norm c.numero = "" →
      buildRows batchId (c :: cs) tp s cd li ln nw = buildRows batchId cs tp s cd li ln nw) ∧
    (∀ n : String, norm (norm n) = norm n) := by
  refine ⟨?_, ?_, ?_, ?_⟩
  · intro n c hc
    by_cases h1 : digits n = ""
    · rw [norm_cases, if_pos h1] at hc
      simp at hc
    · by_cases h2 : startsWith55 (digits n) = true
      · rw [norm_cases, if_neg h1, if_pos h2] at hc
        exact digits_all_isDigit n c hc
      · rw [norm_cases, if_neg h1, if_neg (by simp [h2])] at hc
        rw [data_55_append] at hc
        rcases List.mem_cons.mp hc with rfl | hc
        · decide
        · rcases List.mem_cons.mp hc with rfl | hc
          · decide
          · exact digits_all_isDigit n c hc
  · intro n h1 h2
    rw [norm_cases, if_neg h1, if_neg (by simp [h2])]
  · intro batchId c cs tp s cd li ln nw h
    rw [buildRows_cons, if_pos h, List.nil_append]
  · intro n
    by_cases h1 : digits n = ""
    · have hn : norm n = "" := by rw [norm_cases, if_pos h1]
      rw [hn]
      decide
    · by_cases h2 : startsWith55 (digits n) = true
      · have hn : norm n = digits n := by rw [norm_cases, if_neg h1, if_pos h2]
        rw [hn]
        have hd : digits (digits n) = digits n :=
          digits_of_digits_only _ (digits_all_isDigit n)
        rw [norm_cases, hd, if_neg h1, if_pos h2]
      · have hn : norm n = "55" ++ digits n := by
          rw [norm_cases, if_neg h1, if_neg (by simp [h2])]
        rw [hn]
        have hall : ∀ c ∈ ("55" ++ digits n).data, c.isDigit = true := by
          rw [data_55_append]
          intro c hc
          rcases List.mem_cons.mp hc with rfl | hc
          · decide
          · rcases List.mem_cons.mp hc with rfl | hc
            · decide
            · exact digits_all_isDigit n c hc
        have hd : digits ("55" ++ digits n) = "55" ++ digits n :=
          digits_of_digits_only _ hall
        have hne : ("55" ++ digits n) ≠ "" := by
          intro heq
          have hnil : '5' :: '5' :: (digits n).data = ([] : List Char) := by
            rw [← data_55_append, heq]
          exact List.cons_ne_nil _ _ hnil
        have hsw : startsWith55 ("55" ++ digits n) = true := by
          rw [startsWith55, data_55_append]
          exact List.isPrefixOf_iff_prefix.mpr ⟨(digits n).data, rfl⟩
        rw [norm_cases, hd, if_neg hne, if_pos hsw]

/-- Witness for C7: a bare national number gets the `55` prefix, and
`norm` is idempotent on a formatted address. -/
theorem norm_spec_witness :
    norm "11999998888" = "55" ++ digits "11999998888" ∧
    norm (norm "(11) 9999-8888") = norm "(11) 9999-8888" :=
  ⟨norm_spec.2.1 "11999998888" (by decide) (by decide),
    norm_spec.2.2.2 "(11) 9999-8888"⟩

/-- C8 counterexample: a `{{foo}}` token, whose field is unresolved on
the contact, remains verbatim in the emitted row's rendered text rather
than rendering as the empty string. -/
theorem render_token_remains_cex :
    ((buildRows 1 [⟨none, "11999998888"⟩] ["X{{foo}}Y"] 0 [] none none 0).map
      fun r => r.payload) = ["X{{foo}}Y"] ∧ "X{{foo}}Y" ≠ "XY" := by
  refine ⟨by decide, by decide⟩

/-- C8 (amended): every emitted row's text is the template rendered
against its contact by substituting exactly the two supported tokens —
`{{nome}}` (the empty string when `nome` is absent) and `{{numero}}` —
while any other `{{field}}` token is left verbatim in the output. -/
theorem render_spec :
    (∀ (batchId : Int) (contacts : List Contact) (tp : List String) (s : Int)
       (cd : List Int) (li : Option Int) (ln : Option String) (nw : Int),
      ∀ row ∈ buildRows batchId contacts tp s cd li ln nw,
        ∃ c ∈ contacts, ∃ t ∈ tp,
          row.payload = renderTpl c t ∧ row.numero = norm c.numero) ∧
    renderTpl ⟨some "Ana", "11999998888"⟩ "Hi {{nome}}" = "Hi Ana" ∧
    renderTpl ⟨none, "11999998888"⟩ "Oi {{nome}}!" = "Oi !" ∧
    renderTpl ⟨some "Ana", "11999998888"⟩ "Oi {{nome}}, n {{numero}}."
      = "Oi Ana, n 11999998888." ∧
    renderTpl ⟨some "Ana", "1"⟩ "A{{foo}}B" = "A{{foo}}B" := by
  refine ⟨?_, by decide, by decide, by decide, by decide⟩
  intro batchId contacts tp s cd li ln nw row hrow
  rw [buildRows, List.mem_flatMap] at hrow
  obtain ⟨c, hc, hrow⟩ := hrow
  by_cases h : norm c.numero = ""
  · simp only [h, if_pos] at hrow
    simp at hrow
  · simp only [if_neg h, List.mem_flatMap, List.mem_map] at hrow
    obtain ⟨w, _, t, ht, heq⟩ := hrow
    exact ⟨c, hc, t, ht, by rw [← heq], by rw [← heq]⟩

/-- Witness for the amended C8: the single row built for contact `Ana`
and template `"T"` carries the rendered text and normalized address. -/
theorem render_spec_witness :
    ∃ c ∈ ([⟨some "Ana", "11"⟩] : List Contact), ∃ t ∈ (["T"] : List String),
      (⟨1, none, none, "5511", .queued, none, "T", 0, 0⟩ : MessageRowInsert).payload
          = renderTpl c t ∧
      (⟨1, none, none, "5511", .queued, none, "T", 0, 0⟩ : MessageRowInsert).numero
          = norm c.numero :=
  render_spec.1 1 [⟨some "Ana", "11"⟩] ["T"] 0 [] none none 0
    ⟨1, none, none, "5511", .queued, none, "T", 0, 0⟩ (by decide)

/-! ## Sanity checks of the calendar model -/

/-- Day 0 is 1970-01-01. -/
lemma civilFromDays_epoch : civilFromDays 0 = (1970, 1, 1) := by decide

/-- Inverse direction at the epoch. -/
lemma daysFromCivil_epoch : daysFromCivil 1970 1 1 = 0 := by decide

/-- A leap day: 2024-02-29 is day 19782. -/
lemma daysFromCivil_leap : daysFromCivil 2024 2 29 = 19782 := by decide

/-- C5 (code bug): on a UTC-offset server runtime (`serverOffMin = 0`,
the common serverless deployment), `next0800` for the fixed-offset zone
UTC−03:00 (América/São Paulo) at `t` = 2023-11-14 22:13:20 UTC returns
2023-11-15 08:00 *UTC*, whose local hour in the requested zone is 05:00
— not 08:00 — and which fails `inWindow`.  The offset the source
subtracts comes from `Date.prototype.getTimezoneOffset`, which reports
the server runtime's zone rather than the requested one. -/
theorem next0800_wrong_hour :
    next0800 1700000000000 (fun _ => -180) 0 = 1700035200000 ∧
    getLocalHour (next0800 1700000000000 (fun _ => -180) 0) (fun _ => -180) = 5 ∧
    inWindow (next0800 1700000000000 (fun _ => -180) 0) (fun _ => -180) = false ∧
    (5 : Int) ≠ 8 := by
  refine ⟨by decide, by decide, by decide, by decide⟩

/-! ## Helper lemmas about the transport client -/

/-- When the fallback loop fails, every attempt it recorded (given the
prior trace had no success) is a failure. -/
lemma tryFallbackBatch_none (net : String → Resp) :
    ∀ (alts : List String) (tried : List Tried),
      (tryFallbackBatch net alts tried).1 = none →
      (∀ t ∈ tried, respOk t.status = false) →
      ∀ t ∈ (tryFallbackBatch net alts tried).2, respOk t.status = false := by
  intro alts
  induction alts with
  | nil =>
    intro tried _ hall t ht
    exact hall t ht
  | cons alt rest ih =>
    intro tried h hall t ht
    rw [tryFallbackBatch] at h ht
    by_cases hok : respOk (net alt).status = true
    · rw [if_pos hok] at h
      simp at h
    · rw [if_neg hok] at h ht
      have hall' : ∀ t' ∈ tried ++ [⟨alt, (net alt).status, (net alt).bodyText⟩],
          respOk t'.status = false := by
        intro t' ht'
        rcases List.mem_append.mp ht' with ht' | ht'
        · exact hall t' ht'
        · rcases List.mem_singleton.mp ht' with rfl
          simpa using hok
      exact ih _ h hall' t ht

/-- When the fallback loop succeeds, its returned trace is the full
trace and ends at its first (and only) successful attempt. -/
lemma tryFallbackBatch_some (net : String → Resp) :
    ∀ (alts : List String) (tried t2 : List Tried),
      (tryFallbackBatch net alts tried).1 = some t2 →
      (∀ t ∈ tried, respOk t.status = false) →
      (tryFallbackBatch net alts tried).2 = t2 ∧
      ∃ pre last, t2 = pre ++ [last] ∧ respOk last.status = true ∧
        ∀ t ∈ pre, respOk t.status = false := by
  intro alts
  induction alts with
  | nil =>
    intro tried t2 h _
    simp [tryFallbackBatch] at h
  | cons alt rest ih =>
    intro tried t2 h hall
    rw [tryFallbackBatch] at h ⊢
    by_cases hok : respOk (net alt).status = true
    · rw [if_pos hok] at h ⊢
      simp only [Option.some.injEq] at h
      subst h
      exact ⟨rfl, tried, ⟨alt, (net alt).status, (net alt).bodyText⟩, rfl, hok, hall⟩
    · rw [if_neg hok] at h ⊢
      have hall' : ∀ t' ∈ tried ++ [⟨alt, (net alt).status, (net alt).bodyText⟩],
          respOk t'.status = false := by
        intro t' ht'
        rcases List.mem_append.mp ht' with ht' | ht'
        · exact hall t' ht'
        · rcases List.mem_singleton.mp ht' with rfl
          simpa using hok
      exact ih _ t2 h hall'

/-- When the outer candidate loop succeeds, the accumulated trace ends
at its first successful attempt: every earlier attempt failed and
nothing was attempted afterwards. -/
lemma tryFirstBatch_true (net : String → Resp) :
    ∀ (urls : List String) (tried : List Tried),
      (tryFirstBatch net urls tried).1 = true →
      (∀ t ∈ tried, respOk t.status = false) →
      ∃ pre last, (tryFirstBatch net urls tried).2 = pre ++ [last] ∧
        respOk last.status = true ∧ ∀ t ∈ pre, respOk t.status = false := by
  intro urls
  induction urls with
  | nil =>
    intro tried h _
    simp [tryFirstBatch] at h
  | cons url rest ih =>
    intro tried h hall
    rw [tryFirstBatch] at h ⊢
    by_cases hok : respOk (net url).status = true
    · rw [if_pos hok] at h ⊢
      exact ⟨tried, ⟨url, (net url).status, (net url).bodyText⟩, rfl, hok, hall⟩
    · rw [if_neg hok] at h ⊢
      have hallx : ∀ t' ∈ tried ++ [⟨url, (net url).status, (net url).bodyText⟩],
          respOk t'.status = false := by
        intro t' ht'
        rcases List.mem_append.mp ht' with ht' | ht'
        · exact hall t' ht'
        · rcases List.mem_singleton.mp ht' with rfl
          simpa using hok
      by_cases h404 : (net url).status = 404
      · rw [if_pos h404] at h ⊢
        cases hfb : fallbackOf (net url) with
        | none =>
          rw [hfb] at h
          exact ih _ h hallx
        | some fb =>
          rw [hfb] at h
          dsimp only at h ⊢
          rcases htb : tryFallbackBatch net (normalizeCandidates fb)
              (tried ++ [⟨url, (net url).status, (net url).bodyText⟩]) with ⟨o, tr2⟩
          rw [htb] at h ⊢
          cases o with
          | some t2 =>
            obtain ⟨heq, pre, last, ht2, hlast, hpre⟩ :=
              tryFallbackBatch_some net (normalizeCandidates fb) _ t2
                (by rw [htb]) hallx
            exact ⟨pre, last, ht2, hlast, hpre⟩
          | none =>
            have hnotok := tryFallbackBatch_none net (normalizeCandidates fb) _
              (by rw [htb]) hallx
            rw [htb] at hnotok
            exact ih _ h hnotok
      · rw [if_neg h404] at h ⊢
        exact ih _ h hallx

/-- C6: a 2xx answer on any attempted candidate is immediate success —
the successful attempt closes the trace, every earlier attempt having
failed; when no candidate (fallback-derived ones included) succeeds,
the thrown message enumerates every attempted `{status, url, body}`;
and the stub answering 404 with no fallback hint makes `sendViaUazapi`
fail enumerating exactly the 3 conventional endpoint candidates. -/
theorem sendViaUazapi_spec :
    (∀ (net : String → Resp) (apiBase m : String),
      sendViaUazapi net apiBase = .error m →
      m = sendErrMessage (sendAttempts net apiBase)) ∧
    (∀ (net : String → Resp) (apiBase : String),
      sendViaUazapi net apiBase = .ok () →
      ∃ pre last, sendAttempts net apiBase = pre ++ [last] ∧
        respOk last.status = true ∧ ∀ t ∈ pre, respOk t.status = false) ∧
    ((sendAttempts (fun _ => ⟨404, none, none, "nf"⟩) "https://api.example.com").map
        (fun t => t.url) =
      ["https://api.example.com/send/text", "https://api.example.com/message/text",
        "https://api.example.com/sendText"] ∧
      (sendAttempts (fun _ => ⟨404, none, none, "nf"⟩) "https://api.example.com").length = 3 ∧
      sendViaUazapi (fun _ => ⟨404, none, none, "nf"⟩) "https://api.example.com" =
        .error (sendErrMessage
          (sendAttempts (fun _ => ⟨404, none, none, "nf"⟩) "https://api.example.com"))) := by
  refine ⟨?_, ?_, by decide, by decide, by rfl⟩
  · intro net base m h
    unfold sendViaUazapi at h
    unfold sendAttempts
    rcases htf : tryFirstBatch net (normalizeCandidates base) [] with ⟨b, tried⟩
    rw [htf] at h
    cases b
    · simp at h
      exact h.symm
    · simp at h
  · intro net base h
    unfold sendViaUazapi at h
    unfold sendAttempts
    rcases htf : tryFirstBatch net (normalizeCandidates base) [] with ⟨b, tried⟩
    rw [htf] at h
    cases b
    · simp at h
    · obtain ⟨pre, last, heq, hlast, hpre⟩ :=
        tryFirstBatch_true net (normalizeCandidates base) []
          (by rw [htf]) (by intro t ht; simp at ht)
      rw [htf] at heq
      exact ⟨pre, last, heq, hlast, hpre⟩

/-- Witness for C6: a stub whose `/send/text` endpoint answers 200
makes `sendViaUazapi` succeed on its first attempt. -/
theorem sendViaUazapi_spec_witness :
    ∃ pre last,
      sendAttempts (fun _ => ⟨200, none, none, "ok"⟩) "https://api.example.com"
          = pre ++ [last] ∧
        respOk last.status = true ∧ ∀ t ∈ pre, respOk t.status = false :=
  sendViaUazapi_spec.2.1 (fun _ => ⟨200, none, none, "ok"⟩) "https://api.example.com"
    (by rfl)

/-- C4 counterexample: with a 100 ms budget, two eligible queued
messages selected in one iteration, and the deadline passing right
after the first message is processed, `processChunk` returns
`processed = 2` (the selection's size) although only 1 message was
processed in the slice, as the final store shows. -/
theorem processChunk_count_cex :
    (processChunk (fun _ => none) (fun n => match n with | 3 => 40 | 4 => 100 | _ => 0)
        7 15 100 5
        [⟨1, 7, "5511", .queued, none, 0, "hi", none⟩,
         ⟨2, 7, "5522", .queued, none, 10, "hi", none⟩]).map
      (fun r => (r.1.processed, r.1.reason, (r.2.filter fun m => m.status = .sent).length))
        = some (2, .timeBudget, 1) ∧
    (2 : Nat) ≠ 1 := by
  refine ⟨by decide, by decide⟩

/-- C4 (amended): a deadline exit reports reason `time-budget`, but the
count it carries is the current iteration's selection size (after a
message) or `0` (at the top of the loop) — not the number processed so
far in the slice.  In particular, any call with a non-positive
`timeBudgetMs` (and a clock that does not run backwards between its
first two reads) returns `processed = 0` with reason `time-budget`,
mutating nothing and never throwing; and on the concrete two-message
batch the post-message exit reports the selection size `2` with exactly
`1` message actually processed. -/
theorem processChunk_budget_spec :
    (∀ (send : Nat → Option String) (clk : Nat → Int) (batchId : Int) (limit : Nat)
       (timeBudgetMs : Int) (fuel : Nat) (st : List Msg),
      timeBudgetMs ≤ 0 → clk 0 ≤ clk 1 → 0 < fuel →
      processChunk send clk batchId limit timeBudgetMs fuel st
        = some (⟨0, .timeBudget⟩, st)) ∧
    (processChunk (fun _ => none) (fun n => match n with | 3 => 40 | 4 => 100 | _ => 0)
        7 15 100 5
        [⟨1, 7, "5511", .queued, none, 0, "hi", none⟩,
         ⟨2, 7, "5522", .queued, none, 10, "hi", none⟩]).map
      (fun r => (r.1.processed, r.1.reason, (r.2.filter fun m => m.status = .sent).length))
        = some (2, .timeBudget, 1) := by
  constructor
  · intro send clk batchId limit timeBudgetMs fuel st hb hclk hf
    cases fuel with
    | zero => omega
    | succ f =>
      simp only [processChunk, processChunkLoop]
      rw [if_neg (by omega)]
  · decide

/-- Witness for the amended C4: budget `0` on an empty store returns
`processed = 0` with reason `time-budget` and leaves the store intact. -/
theorem processChunk_budget_spec_witness :
    processChunk (fun _ => none) (fun _ => 0) 0 15 0 1 [] = some (⟨0, .timeBudget⟩, []) :=
  processChunk_budget_spec.1 (fun _ => none) (fun _ => 0) 0 15 0 1 []
    (le_refl 0) (le_refl 0) (by norm_num)

/-! ## Helper lemma about the status aggregation -/

/-- Filtering after a map has the length of filtering the composition. -/
lemma length_filter_map {α β : Type} (l : List α) (f : α → β) (p : β → Bool) :
    ((l.map f).filter p).length = (l.filter fun x => p (f x)).length := by
  rw [← List.countP_eq_length_filter, ← List.countP_eq_length_filter, List.countP_map]
  rfl

/-- C9 counterexample: a message of the batch carrying the non-null
error `some ""` is not returned in `errors` — the handler tests JS
truthiness (`!!r.error`), which drops empty-string errors. -/
theorem getStatus_empty_error_cex :
    (getStatus [⟨1, 7, "55", .error, some "", 0, "x", none⟩] 7).errors = [] ∧
    (some "" : Option String) ≠ none := by
  refine ⟨by decide, by decide⟩

/-- C9 (amended): the GET aggregation is a pure read returning
`sent`/`failed`/`queued` as the counts of the batch's messages with
status `sent`, `error`, and `queued`-or-`sending` respectively,
`inProgress = (queued > 0)`, and as `errors` up to the 10 most recent
(last, in storage order) messages whose error is non-null *and
non-empty* (JS-truthy). -/
theorem getStatus_spec (st : List Msg) (batchId : Int) :
    (getStatus st batchId).sent
        = ((st.filter fun m => m.batch_id = batchId).filter fun m => m.status = .sent).length ∧
    (getStatus st batchId).failed
        = ((st.filter fun m => m.batch_id = batchId).filter fun m => m.status = .error).length ∧
    (getStatus st batchId).queued
        = ((st.filter fun m => m.batch_id = batchId).filter fun m =>
            m.status = .queued ∨ m.status = .sending).length ∧
    ((getStatus st batchId).inProgress = true ↔ 0 < (getStatus st batchId).queued) ∧
    (getStatus st batchId).errors.length ≤ 10 ∧
    (getStatus st batchId).errors
        <:+ (((st.filter fun m => m.batch_id = batchId).map fun m => (m.status, m.error)).filter
              fun r => truthyErr r.2) ∧
    (∀ p ∈ (getStatus st batchId).errors, ∃ s, p.2 = some s ∧ s ≠ "") := by
  refine ⟨?_, ?_, ?_, ?_, ?_, ?_, ?_⟩
  · exact length_filter_map _ _ _
  · exact length_filter_map _ _ _
  · exact length_filter_map _ _ _
  · exact decide_eq_true_iff
  · show (lastTen _).length ≤ 10
    unfold lastTen
    rw [List.length_drop]
    omega
  · exact List.drop_suffix _ _
  · intro p hp
    have hp' : p ∈ ((st.filter fun m => m.batch_id = batchId).map
        fun m => (m.status, m.error)).filter fun r => truthyErr r.2 :=
      List.mem_of_mem_drop hp
    have htr : truthyErr p.2 = true := (List.mem_filter.mp hp').2
    cases hsnd : p.2 with
    | none => rw [truthyErr.eq_def, hsnd] at htr; simp at htr
    | some s =>
      rw [truthyErr.eq_def, hsnd] at htr
      exact ⟨s, rfl, by simpa using htr⟩

/-- Witness for the amended C9: the single error row of the batch is
returned and carries a non-null, non-empty error. -/
theorem getStatus_spec_witness :
    ∃ s, ((MessageStatus.error, some "boom") : MessageStatus × Option String).2
        = some s ∧ s ≠ "" :=
  (getStatus_spec [⟨1, 7, "55", .error, some "boom", 0, "x", none⟩] 7).2.2.2.2.2.2
    (.error, some "boom") (by decide)

end Disparos
